import Mathlib

/-!
Verification of the PETS notebook (notebooks/pets_example.ipynb) against its design
specification. The notebook drives a model-based control loop: a replay buffer is populated by
random exploration, then each trial retrains the dynamics model at its first step and runs the
real environment under a CEM trajectory-optimizer agent. The library collaborators the notebook
calls (replay buffer, batch iterators, model trainer, CEM optimizer, model environment) are
repository code whose implementation is not part of the notebook; they are modelled from the
specification, as marked on each definition. Scalar numeric values are abstracted by integers;
exact rational arithmetic is used where the specification divides (ratios, means, momentum).
-/

namespace Pets

/-- A single experience tuple recorded from the real environment: the data model of spec
section 3 (observation, action, reward, next observation, terminal flag), with integer scalars
as the numeric abstraction. -/
structure Transition where
  obs : List Int
  action : Int
  reward : Int
  next_obs : List Int
  terminal : Bool
  deriving DecidableEq

/-- Modelled from the spec: the EmptyBufferError of spec sections 4.1 and 7 (the replay-buffer
implementation is library code, not under src/). -/
inductive BufferError where
  | emptyBuffer
  deriving DecidableEq

/-- Modelled from the spec: the replay buffer created by create_replay_buffer in the notebook
(library code, not under src/). Spec section 3: an ordered, fixed-capacity ring of Transitions
whose oldest entries are overwritten on overflow; modelled as the list of stored items, oldest
first, together with the fixed capacity. -/
structure ReplayBuffer (α : Type) where
  capacity : Nat
  data : List α
  deriving DecidableEq

/-- A freshly created, empty replay buffer of the given capacity. -/
def ReplayBuffer.empty (α : Type) (cap : Nat) : ReplayBuffer α := ⟨cap, []⟩

/-- Number of stored items: num_stored in the notebook, count_stored in the spec. -/
def ReplayBuffer.num_stored {α : Type} (b : ReplayBuffer α) : Nat := b.data.length

/-- Modelled from the spec (section 4.1): add appends in O(1), overwriting the oldest entry
when at capacity. -/
def ReplayBuffer.add {α : Type} (b : ReplayBuffer α) (x : α) : ReplayBuffer α :=
  if b.data.length < b.capacity then ⟨b.capacity, b.data ++ [x]⟩
  else ⟨b.capacity, b.data.tail ++ [x]⟩

/-- A sequence of add calls, in order. -/
def ReplayBuffer.addAll {α : Type} (b : ReplayBuffer α) (xs : List α) : ReplayBuffer α :=
  xs.foldl ReplayBuffer.add b

/-- All stored items, oldest first, as fed to update_normalizer by the notebook. -/
def ReplayBuffer.get_all {α : Type} (b : ReplayBuffer α) : List α := b.data

/-- Splits a list into consecutive batches of the given size. -/
def chunkList {α : Type} (k : Nat) (xs : List α) : List (List α) :=
  (List.range ((xs.length + k - 1) / k)).map (fun i => (xs.drop (i * k)).take k)

/-- Modelled from the spec (section 4.1): sample_batches partitions the stored transitions into
a validation part (the first floor(count_stored * val_ratio) items, the ratio given as the
exact fraction vr_num / vr_den) and a training part, returns the mini-batches of each, and
fails with EmptyBufferError when count_stored = 0. The epoch shuffle is modelled as the
identity permutation. -/
def ReplayBuffer.sample_batches {α : Type} (b : ReplayBuffer α) (batch_size vr_num vr_den : Nat) :
    Except BufferError (List (List α) × List (List α)) :=
  if b.num_stored = 0 then .error .emptyBuffer
  else
    let val_count := b.num_stored * vr_num / vr_den
    .ok (chunkList batch_size (b.data.drop val_count), chunkList batch_size (b.data.take val_count))

/-- Modelled from the spec: get_basic_buffer_iterators (mbrl.util.common, not under src/), the
batch-iterator request the notebook makes before training; behaviourally the sample_batches
operation of spec section 4.1. -/
def get_basic_buffer_iterators {α : Type} (b : ReplayBuffer α) (batch_size vr_num vr_den : Nat) :
    Except BufferError (List (List α) × List (List α)) :=
  b.sample_batches batch_size vr_num vr_den

/-- Modelled from the spec: the InvalidConfigurationError of spec sections 4.3 and 7. -/
inductive ConfigError where
  | invalidConfiguration
  deriving DecidableEq

/-- Ceiling division on naturals. -/
def ceilDiv (a b : Nat) : Nat := (a + b - 1) / b

/-- Modelled from the spec: the CEMOptimizer configuration of notebook cell 15; elite_ratio is
kept as the exact fraction er_num / er_den. -/
structure CEMConfig where
  num_iterations : Nat
  er_num : Nat
  er_den : Nat
  population_size : Nat
  alpha : ℚ
  return_mean_elites : Bool

/-- Number of elites: the ceiling of population_size times elite_ratio. -/
def CEMConfig.elite_num (c : CEMConfig) : Nat := ceilDiv (c.population_size * c.er_num) c.er_den

/-- The optimizer configuration the notebook builds (cell 15): num_iterations 5, elite_ratio
0.1 = 1/10, population_size 500, alpha 0.1, return_mean_elites true. -/
def notebook_optimizer_cfg : CEMConfig := ⟨5, 1, 10, 500, mkRat 1 10, true⟩

/-- Modelled from the spec (section 4.3 edge cases): the configuration check — population_size
times elite_ratio must round up to at least one elite — failing fast with
InvalidConfigurationError. -/
def CEMOptimizer.validate (c : CEMConfig) : Except ConfigError Unit :=
  if 1 ≤ c.elite_num then .ok () else .error .invalidConfiguration

/-- Sum of equal-length vectors of rationals. -/
def vecSum : List (List ℚ) → List ℚ
  | [] => []
  | [v] => v
  | v :: vs => List.zipWith (fun a b => a + b) v (vecSum vs)

/-- Pointwise mean of a set of vectors. -/
def vecMean (vs : List (List ℚ)) : List ℚ :=
  (vecSum vs).map (fun x => x / (vs.length : ℚ))

/-- Pointwise population variance of a set of vectors. -/
def vecVariance (vs : List (List ℚ)) : List ℚ :=
  vecMean (vs.map (fun v => List.zipWith (fun x m => (x - m) * (x - m)) v (vecMean vs)))

/-- Candidates sorted by score, best first (stable merge sort; the tie order among equal scores
is left open by the spec). -/
def sortedByScore (scored : List (List ℚ × ℚ)) : List (List ℚ × ℚ) :=
  scored.mergeSort (fun x y => decide (y.2 ≤ x.2))

/-- Modelled from the spec (section 4.3 step 2c): the elite set is the top elite_num candidates
by score. -/
def eliteSet (k : Nat) (scored : List (List ℚ × ℚ)) : List (List ℚ × ℚ) :=
  (sortedByScore scored).take k

/-- Momentum blend of the old statistics with the elite statistics. -/
def blend (a : ℚ) (old new : List ℚ) : List ℚ :=
  List.zipWith (fun o n => a * o + (1 - a) * n) old new

/-- Modelled from the spec (section 4.3 steps 2c and 2d): one CEM distribution update — select
the elite set, then blend mean and variance with the momentum coefficient alpha. -/
def cemUpdate (c : CEMConfig) (scored : List (List ℚ × ℚ)) (mean vari : List ℚ) :
    List ℚ × List ℚ :=
  let elites := (eliteSet c.elite_num scored).map Prod.fst
  (blend c.alpha mean (vecMean elites), blend c.alpha vari (vecVariance elites))

/-- Modelled from the spec (section 4.3 step 2): the iterations of one optimizer call; the
candidate population drawn from the current distribution is abstracted by the sample
function, and each candidate's particle-averaged score by the score function. -/
def cemIterate (c : CEMConfig) (score : List ℚ → ℚ)
    (sample : List ℚ × List ℚ → List (List ℚ)) : Nat → List ℚ × List ℚ → List ℚ × List ℚ
  | 0, mv => mv
  | n + 1, mv =>
    let cands := sample mv
    cemIterate c score sample n (cemUpdate c (cands.map (fun x => (x, score x))) mv.1 mv.2)

/-- Modelled from the spec: the optimizer entry point — the configuration is validated before
any planning work, so an invalid configuration fails fast with InvalidConfigurationError and no
iteration runs. -/
def CEMOptimizer.optimize (c : CEMConfig) (score : List ℚ → ℚ)
    (sample : List ℚ × List ℚ → List (List ℚ)) (mean0 var0 : List ℚ) :
    Except ConfigError (List ℚ × List ℚ) :=
  match CEMOptimizer.validate c with
  | .error e => .error e
  | .ok _ => .ok (cemIterate c score sample c.num_iterations (mean0, var0))

/-- Modelled from the spec: the TrajectoryOptimizerAgent's episode cache — the previous best
action sequence, kept between planning calls within a trial. -/
structure TrajectoryOptimizerAgent where
  prev_sol : Option (List Int)
  deriving DecidableEq

/-- Modelled from the spec / notebook cell 20: agent.reset clears the previous action sequence
found, discarding the warm-start state. -/
def TrajectoryOptimizerAgent.reset (_a : TrajectoryOptimizerAgent) : TrajectoryOptimizerAgent :=
  ⟨none⟩

/-- Shift an action sequence left by one step, the freed last entry reset to the default
action. -/
def shiftSol (defAct : Int) (s : List Int) : List Int := s.drop 1 ++ [defAct]

/-- The default initial solution of a planning call with no warm-start state. -/
def initSolution (H : Nat) (mid : Int) : List Int := List.replicate H mid

/-- Modelled from the spec (section 4.3 step 1): the initial sampling-distribution mean of a
planning call — the shifted previous best sequence when one exists, the default otherwise. -/
def initialMean (H : Nat) (mid : Int) (a : TrajectoryOptimizerAgent) : List Int :=
  match a.prev_sol with
  | none => initSolution H mid
  | some s => shiftSol mid s

/-- Modelled from the spec: one planning call of the TrajectoryOptimizerAgent — search from the
warm-started initial mean (the search itself abstracted by the optimize function), return the
best sequence found and remember it for the next call. -/
def planCall (search : List Int → List Int) (H : Nat) (mid : Int)
    (a : TrajectoryOptimizerAgent) : List Int × TrajectoryOptimizerAgent :=
  let best := search (initialMean H mid a)
  (best, ⟨some best⟩)

/-- Modelled from the spec: the dynamics-model capability (section 6) under the notebook
configuration target_is_delta = true and learned_rewards = false: an ensemble whose members,
chosen by index, map (observation, action) to a predicted observation delta. -/
structure DynamicsModel where
  predict : Nat → List Int → Int → List Int

/-- Internal state of the Simulated Rollout Environment: the simulated observation, the
ensemble member fixed for the rollout, and bookkeeping for the random generator (not consulted
under the fixed_model propagation). -/
structure SimState where
  obs : List Int
  member : Nat
  gen : Nat
  deriving DecidableEq

/-- Modelled from the spec (section 4.2): ModelEnv.step under the fixed_model propagation:
query the model for the delta with the fixed member, apply the delta, compute the reward with
the supplied reward function, evaluate the termination predicate. -/
def ModelEnv.step (m : DynamicsModel) (term_fn : List Int → Bool)
    (reward_fn : Int → List Int → Int) (s : SimState) (a : Int) :
    SimState × List Int × Int × Bool :=
  let next := List.zipWith (fun x d => x + d) s.obs (m.predict s.member s.obs a)
  (⟨next, s.member, s.gen⟩, next, reward_fn a next, term_fn next)

/-- The real-environment collaborator of spec section 6: a reset state, an observation map and
a step function returning (next state, reward, done). -/
structure RealEnv (σ : Type) where
  reset : σ
  obs : σ → List Int
  step : σ → Int → σ × Int × Bool

/-- The run configuration the notebook assembles (cells 6 and 21): trial length, number of
trials, buffer capacity, batch size, validation ratio (as the fraction vr_num / vr_den),
training epochs and patience, and the abstract per-epoch training loss and validation score
observed by the model trainer. -/
structure RunParams where
  trial_length : Nat
  num_trials : Nat
  capacity : Nat
  model_batch_size : Nat
  vr_num : Nat
  vr_den : Nat
  num_epochs : Nat
  patience : Nat
  tr_loss : Nat → Int
  val_score : Nat → Int

/-- The notebook configuration: trial_length 200, num_trials 10, buffer capacity num_steps =
num_trials * trial_length = 2000 (create_replay_buffer sizes the buffer from
cfg.overrides.num_steps), model_batch_size 32, validation_ratio 0.05 = 1/20, num_epochs 50,
patience 50. -/
def notebookParams (tl vs : Nat → Int) : RunParams := ⟨200, 10, 2000, 32, 1, 20, 50, 50, tl, vs⟩

/-- One invocation of the caller-supplied training progress callback (notebook cell 18): epoch
index, training loss, validation score and best validation score so far; since_improve
additionally instruments the patience counter after the epoch. -/
structure TrainEvent where
  epoch : Nat
  tr_loss : Int
  val_score : Int
  best_val : Int
  since_improve : Nat
  deriving DecidableEq

/-- Whether a validation score strictly improves on the best score seen so far. -/
def improvedB (best : Option Int) (v : Int) : Bool :=
  match best with
  | none => true
  | some b => decide (v < b)

/-- Modelled from the spec (section 4.4): the epochs of one ModelTrainer.train call — at most
fuel more epochs, stopping once the patience counter reaches patience; every epoch invokes the
callback once, recorded as a TrainEvent. -/
def trainAux (tl vs : Nat → Int) (patience : Nat) :
    Nat → Nat → Option Int → Nat → List TrainEvent
  | 0, _, _, _ => []
  | fuel + 1, epoch, best, since =>
    let v := vs epoch
    let best2 := if improvedB best v then v else best.getD v
    let since2 := if improvedB best v then 0 else since + 1
    let ev : TrainEvent := ⟨epoch, tl epoch, v, best2, since2⟩
    if patience ≤ since2 then [ev]
    else ev :: trainAux tl vs patience fuel (epoch + 1) (some best2) since2

/-- Modelled from the spec: model_trainer.train(..., num_epochs, patience, callback) as called
by the notebook; returns the sequence of callback invocations. -/
def ModelTrainer.train (P : RunParams) : List TrainEvent :=
  trainAux P.tr_loss P.val_score P.patience P.num_epochs 0 none 0

/-- Observable events of one trial of the control loop, in program order. -/
inductive Event where
  | normalizerUpdate (count : Nat)
  | epochCallback (ev : TrainEvent)
  | envStep (steps_trial : Nat)
  deriving DecidableEq

/-- True unless the event is a normalizer refit from an empty buffer. -/
def posNormalizer : Event → Bool
  | .normalizerUpdate n => decide (0 < n)
  | _ => true

/-- The model-training block the notebook runs when steps_trial = 0 (cell 21):
dynamics_model.update_normalizer(replay_buffer.get_all()), then get_basic_buffer_iterators —
which fails with EmptyBufferError on an empty buffer — then model_trainer.train with the
per-epoch callback. -/
def trainingBlock (P : RunParams) (buf : ReplayBuffer Transition) :
    Except BufferError (List Event) :=
  match get_basic_buffer_iterators buf P.model_batch_size P.vr_num P.vr_den with
  | .error e => .error e
  | .ok _ =>
    .ok (Event.normalizerUpdate buf.num_stored :: (ModelTrainer.train P).map Event.epochCallback)

/-- The mutable state of the notebook's per-trial loop: environment state, replay buffer, step
counter, accumulated trial reward, and the trace of events so far. -/
structure LoopState (σ : Type) where
  envState : σ
  buffer : ReplayBuffer Transition
  steps_trial : Nat
  total_reward : Int
  events : List Event
  deriving DecidableEq

/-- Modelled from the spec: common_util.step_env_and_add_to_buffer (not under src/): choose the
agent action from the current observation, step the real environment, and add the resulting
transition to the buffer; returns (next state, reward, done, buffer). -/
def step_env_and_add_to_buffer {σ : Type} (env : RealEnv σ) (s : σ) (act : List Int → Int)
    (buf : ReplayBuffer Transition) : σ × Int × Bool × ReplayBuffer Transition :=
  let a := act (env.obs s)
  let r := env.step s a
  (r.1, r.2.1, r.2.2, buf.add ⟨env.obs s, a, r.2.1, env.obs r.1, r.2.2⟩)

/-- The while-not-done loop of one trial (notebook cell 21), with fuel = trial_length -
steps_trial, so that the loop stops when the step counter reaches trial_length or the
environment reports done; the returned flag is true exactly when the environment ended the
trial. The training block runs at steps_trial = 0 only. -/
def trialLoop {σ : Type} (P : RunParams) (env : RealEnv σ) (act : List Int → Int) :
    Nat → LoopState σ → Except BufferError (LoopState σ × Bool)
  | 0, st => .ok (st, false)
  | fuel + 1, st =>
    match (if st.steps_trial = 0 then trainingBlock P st.buffer else .ok []) with
    | .error e => .error e
    | .ok tevs =>
      let r := step_env_and_add_to_buffer env st.envState act st.buffer
      let st2 : LoopState σ := ⟨r.1, r.2.2.2, st.steps_trial + 1, st.total_reward + r.2.1,
        st.events ++ tevs ++ [Event.envStep st.steps_trial]⟩
      if r.2.2.1 then .ok (st2, true) else trialLoop P env act fuel st2

/-- The state at a trial start: freshly reset environment, step counter and trial reward
zeroed, empty trace (notebook cell 21: env.reset, agent.reset, steps_trial = 0,
total_reward = 0). -/
def trialStart {σ : Type} (env : RealEnv σ) (buf : ReplayBuffer Transition) : LoopState σ :=
  ⟨env.reset, buf, 0, 0, []⟩

/-- One full trial of the main PETS loop. -/
def runTrial {σ : Type} (P : RunParams) (env : RealEnv σ) (act : List Int → Int)
    (buf : ReplayBuffer Transition) : Except BufferError (LoopState σ × Bool) :=
  trialLoop P env act P.trial_length (trialStart env buf)

/-- Result of the whole run: the final buffer, the per-trial rewards, and the per-trial event
traces. -/
structure RunResult (σ : Type) where
  buffer : ReplayBuffer Transition
  rewards : List Int
  traces : List (List Event)
  deriving DecidableEq

/-- The for-trial-in-range(num_trials) loop of notebook cell 21. -/
def runTrials {σ : Type} (P : RunParams) (env : RealEnv σ) (act : List Int → Int) :
    Nat → ReplayBuffer Transition → List Int → List (List Event) →
    Except BufferError (RunResult σ)
  | 0, buf, rews, trs => .ok ⟨buf, rews, trs⟩
  | n + 1, buf, rews, trs =>
    match runTrial P env act buf with
    | .error e => .error e
    | .ok r => runTrials P env act n r.1.buffer (rews ++ [r.1.total_reward]) (trs ++ [r.1.events])

/-- Modelled from the spec: common_util.rollout_agent_trajectories (not under src/) as the
notebook calls it — collect exactly the requested number of real-environment steps with the
given agent, adding every transition to the buffer, resetting the environment whenever it
reports done. -/
def rollout_agent_trajectories {σ : Type} (env : RealEnv σ) (act : List Int → Int) :
    Nat → σ → ReplayBuffer Transition → ReplayBuffer Transition
  | 0, _, buf => buf
  | n + 1, s, buf =>
    let r := step_env_and_add_to_buffer env s act buf
    rollout_agent_trajectories env act n (if r.2.2.1 then env.reset else r.1) r.2.2.2

/-- The whole notebook program: create the replay buffer, populate it with trial_length
random-exploration steps, then run num_trials trials of the PETS loop. -/
def petsRun {σ : Type} (P : RunParams) (env : RealEnv σ) (explore_act act : List Int → Int) :
    Except BufferError (RunResult σ) :=
  let buf0 := ReplayBuffer.empty Transition P.capacity
  let buf1 := rollout_agent_trajectories env explore_act P.trial_length env.reset buf0
  runTrials P env act P.num_trials buf1 [] []

/-- The per-trial event traces of a finished run, empty when the run failed. -/
def runTraces {σ : Type} : Except BufferError (RunResult σ) → List (List Event)
  | .ok r => r.traces
  | .error _ => []

/-- The final number of stored transitions of a finished run. -/
def runStoredCount {σ : Type} : Except BufferError (RunResult σ) → Option Nat
  | .ok r => some r.buffer.num_stored
  | .error _ => none

/-- A trivial deterministic environment on the unit state that never reports done. -/
def unitEnv : RealEnv Unit := ⟨(), fun _ => [], fun _ _ => ((), 0, false)⟩

/-- The constant zero agent. -/
def zeroAct : List Int → Int := fun _ => 0

/-- Constant zero per-epoch statistics. -/
def zInt : Nat → Int := fun _ => 0

/-- The claim C1 scenario exactly as the spec states it: the notebook parameters but buffer
capacity 1000. -/
def cfg1000 : RunParams := ⟨200, 10, 1000, 32, 1, 20, 50, 50, zInt, zInt⟩

/-- Small run parameters (no training epochs) used to exercise the trial loop on concrete
inputs. -/
def tinyParamsA : RunParams := ⟨1, 1, 2, 1, 0, 1, 0, 1, zInt, zInt⟩

/-- Small run parameters with one training epoch. -/
def tinyParamsB : RunParams := ⟨1, 1, 2, 1, 0, 1, 1, 1, zInt, zInt⟩

/-- Small run parameters for a concrete end-to-end run. -/
def tinyParamsC : RunParams := ⟨1, 1, 1, 1, 0, 1, 0, 1, zInt, zInt⟩

/-- A concrete transition. -/
def sampleTransition : Transition := ⟨[], 0, 0, [], false⟩

/-- A concrete one-element replay buffer of capacity 2. -/
def sampleBuffer : ReplayBuffer Transition := ⟨2, [sampleTransition]⟩

/-- A concrete small CEM configuration: population 4, elite_ratio 1/2. -/
def cemWitnessCfg : CEMConfig := ⟨1, 1, 2, 4, mkRat 1 10, true⟩

/-- Three concrete scored candidates over a horizon of one. -/
def cemWitnessScored : List (List ℚ × ℚ) := [([1], 3), ([2], 5), ([3], 4)]

/-- The stagnation relation between consecutive training callback events: either the epoch did
not improve the best validation score — the patience counter increments and the best score is
unchanged — or it did improve it, and the counter resets. -/
def stagnation (e1 e2 : TrainEvent) : Prop :=
  (e2.since_improve = e1.since_improve + 1 ∧ e2.best_val = e1.best_val ∧
    ¬ e2.val_score < e1.best_val)
  ∨ (e2.since_improve = 0 ∧ e2.best_val = e2.val_score ∧ e2.val_score < e1.best_val)

theorem add_capacity {α : Type} (b : ReplayBuffer α) (x : α) :
    (b.add x).capacity = b.capacity := by
  unfold ReplayBuffer.add
  split <;> rfl

theorem add_num_stored {α : Type} (b : ReplayBuffer α) (x : α) (hc : 0 < b.capacity)
    (hle : b.num_stored ≤ b.capacity) :
    (b.add x).num_stored = min (b.num_stored + 1) b.capacity := by
  unfold ReplayBuffer.num_stored at *
  unfold ReplayBuffer.add
  split
  · simp only [List.length_append, List.length_cons, List.length_nil]
    omega
  · simp only [List.length_append, List.length_tail, List.length_cons, List.length_nil]
    omega

theorem addAll_capacity {α : Type} (xs : List α) :
    ∀ b : ReplayBuffer α, (b.addAll xs).capacity = b.capacity := by
  induction xs with
  | nil => intro b; rfl
  | cons x xs ih =>
    intro b
    show ((b.add x).addAll xs).capacity = b.capacity
    rw [ih, add_capacity]

theorem addAll_num_stored {α : Type} (xs : List α) :
    ∀ b : ReplayBuffer α, 0 < b.capacity → b.num_stored ≤ b.capacity →
    (b.addAll xs).num_stored = min (b.num_stored + xs.length) b.capacity := by
  induction xs with
  | nil =>
    intro b hc hle
    show b.num_stored = _
    simp only [List.length_nil]
    omega
  | cons x xs ih =>
    intro b hc hle
    show ((b.add x).addAll xs).num_stored = _
    have h1 := add_num_stored b x hc hle
    have h2 := add_capacity b x
    rw [ih (b.add x) (by omega) (by omega), h1, h2]
    simp only [List.length_cons]
    omega

theorem addAll_data {α : Type} (xs : List α) :
    ∀ b : ReplayBuffer α, 0 < b.capacity → b.data.length ≤ b.capacity →
    (b.addAll xs).data = (b.data ++ xs).drop (b.data.length + xs.length - b.capacity) := by
  induction xs with
  | nil =>
    intro b hc hle
    show b.data = _
    rw [List.append_nil, List.length_nil, Nat.add_zero, Nat.sub_eq_zero_of_le hle,
      List.drop_zero]
  | cons x xs ih =>
    intro b hc hle
    show ((b.add x).addAll xs).data = _
    by_cases h : b.data.length < b.capacity
    · have hd : (b.add x).data = b.data ++ [x] := by
        unfold ReplayBuffer.add
        rw [if_pos h]
      have hih := ih (b.add x) (by rw [add_capacity]; exact hc)
        (by rw [hd, add_capacity]; simp only [List.length_append, List.length_cons,
          List.length_nil]; omega)
      rw [hih, hd, add_capacity, List.append_assoc, List.singleton_append]
      congr 1
      simp only [List.length_append, List.length_cons, List.length_nil]
      omega
    · have heq : b.data.length = b.capacity := by omega
      have hd : (b.add x).data = b.data.tail ++ [x] := by
        unfold ReplayBuffer.add
        rw [if_neg h]
      have hlen : (b.add x).data.length = b.capacity := by
        rw [hd]
        simp only [List.length_append, List.length_tail, List.length_cons, List.length_nil]
        omega
      have hlen2 : (b.data.tail ++ [x]).length = b.capacity := by
        rw [← hd]
        exact hlen
      have hih := ih (b.add x) (by rw [add_capacity]; exact hc) (by rw [add_capacity]; omega)
      rw [hih, hd, add_capacity, hlen2]
      cases hbd : b.data with
      | nil =>
        exfalso
        rw [hbd] at heq
        simp only [List.length_nil] at heq
        omega
      | cons y ys =>
        have e1 : b.capacity + xs.length - b.capacity = xs.length := by omega
        have e2 : (y :: ys).length + (x :: xs).length - b.capacity = xs.length + 1 := by
          rw [hbd] at heq
          simp only [List.length_cons]
          simp only [List.length_cons] at heq
          omega
        rw [e1, e2, List.tail_cons, List.append_assoc, List.singleton_append,
          List.cons_append, List.drop_succ_cons]

/-- Claim C2: for every sequence of add calls on a buffer of positive capacity c, count_stored
never exceeds c, equals min (number of adds) c, and the retained data is exactly the most
recent c additions in order — the oldest entries having been overwritten. -/
theorem buffer_fifo_capacity (α : Type) (c : Nat) (xs : List α) (hc : 0 < c) :
    ((ReplayBuffer.empty α c).addAll xs).num_stored ≤ c ∧
    ((ReplayBuffer.empty α c).addAll xs).num_stored = min xs.length c ∧
    ((ReplayBuffer.empty α c).addAll xs).data = xs.drop (xs.length - c) := by
  have h0 : (ReplayBuffer.empty α c).num_stored = 0 := rfl
  have h1 := addAll_num_stored xs (ReplayBuffer.empty α c) hc (by rw [h0]; omega)
  have h2 := addAll_data xs (ReplayBuffer.empty α c) hc
    (by show ([] : List α).length ≤ c; simp)
  refine ⟨?_, ?_, ?_⟩
  · rw [h1]
    show min (0 + xs.length) c ≤ c
    omega
  · rw [h1]
    show min (0 + xs.length) c = min xs.length c
    omega
  · rw [h2]
    show (([] : List α) ++ xs).drop (([] : List α).length + xs.length - c) = _
    simp only [List.nil_append, List.length_nil, Nat.zero_add]

/-- Witness for C2 at a concrete input: capacity 2, three adds. -/
theorem buffer_fifo_capacity_witness :
    0 < 2 ∧
    (((ReplayBuffer.empty Nat 2).addAll [10, 20, 30]).num_stored ≤ 2 ∧
     ((ReplayBuffer.empty Nat 2).addAll [10, 20, 30]).num_stored = min ([10, 20, 30] : List Nat).length 2 ∧
     ((ReplayBuffer.empty Nat 2).addAll [10, 20, 30]).data = ([10, 20, 30] : List Nat).drop (([10, 20, 30] : List Nat).length - 2)) :=
  ⟨by decide, buffer_fifo_capacity Nat 2 [10, 20, 30] (by decide)⟩

/-- Claim C3: requesting the batch iterators from an empty buffer fails with EmptyBufferError,
and succeeds (in particular does not fail that way) whenever count_stored is positive. -/
theorem sample_batches_empty_error (α : Type) (b : ReplayBuffer α) (bs vn vd : Nat) :
    (b.num_stored = 0 → get_basic_buffer_iterators b bs vn vd = .error .emptyBuffer) ∧
    (0 < b.num_stored → (get_basic_buffer_iterators b bs vn vd).isOk = true) ∧
    (0 < b.num_stored → get_basic_buffer_iterators b bs vn vd ≠ .error .emptyBuffer) := by
  unfold get_basic_buffer_iterators ReplayBuffer.sample_batches
  refine ⟨fun h => ?_, fun h => ?_, fun h => ?_⟩
  · rw [if_pos h]
  · rw [if_neg (by omega)]
    rfl
  · rw [if_neg (by omega)]
    intro hcon
    cases hcon

/-- Witness for C3 at concrete inputs: an empty buffer errors, a one-element buffer does
not. -/
theorem sample_batches_empty_error_witness :
    (ReplayBuffer.empty Nat 3).num_stored = 0 ∧
    get_basic_buffer_iterators (ReplayBuffer.empty Nat 3) 2 1 20 = .error .emptyBuffer ∧
    0 < (ReplayBuffer.mk 3 [7] : ReplayBuffer Nat).num_stored ∧
    (get_basic_buffer_iterators (ReplayBuffer.mk 3 [7] : ReplayBuffer Nat) 2 1 20).isOk = true :=
  ⟨rfl, (sample_batches_empty_error Nat (ReplayBuffer.empty Nat 3) 2 1 20).1 rfl, by decide,
   (sample_batches_empty_error Nat (ReplayBuffer.mk 3 [7]) 2 1 20).2.1 (by decide)⟩

theorem ceilDiv_eq_ceil (a b : Nat) (hb : 0 < b) :
    ceilDiv a b = Nat.ceil ((a : ℚ) / (b : ℚ)) := by
  rcases Nat.eq_zero_or_pos a with ha | ha
  · subst ha
    unfold ceilDiv
    rw [Nat.zero_add, Nat.div_eq_of_lt (by omega), Nat.cast_zero, zero_div, Nat.ceil_zero]
  · unfold ceilDiv
    have key : b * ((a + b - 1) / b) + (a + b - 1) % b = a + b - 1 :=
      Nat.div_add_mod (a + b - 1) b
    have hr : (a + b - 1) % b < b := Nat.mod_lt _ hb
    set q := (a + b - 1) / b with hq
    have hq1 : 1 ≤ q := by
      rcases Nat.lt_or_ge q 1 with h | h
      · exfalso
        interval_cases q <;> omega
      · exact h
    have k1 : q * b < a + b := by
      rw [Nat.mul_comm]
      omega
    have k2 : a ≤ q * b := by
      rw [Nat.mul_comm]
      omega
    have hbQ : (0 : ℚ) < (b : ℚ) := by exact_mod_cast hb
    have k1Q : (q : ℚ) * (b : ℚ) < (a : ℚ) + (b : ℚ) := by exact_mod_cast k1
    have k2Q : (a : ℚ) ≤ (q : ℚ) * (b : ℚ) := by exact_mod_cast k2
    symm
    rw [Nat.ceil_eq_iff (by omega : q ≠ 0)]
    constructor
    · rw [Nat.cast_sub hq1, Nat.cast_one, lt_div_iff₀ hbQ]
      nlinarith [hbQ]
    · rw [div_le_iff₀ hbQ]
      exact k2Q

/-- Claim C4: the number of elites is the ceiling of population_size times elite_ratio, the
optimizer fails fast with InvalidConfigurationError exactly when that ceiling is zero (before
any planning iteration runs), succeeds otherwise, and the notebook configuration passes the
check with 50 elites. -/
theorem cem_elite_config (c : CEMConfig) (score : List ℚ → ℚ)
    (sample : List ℚ × List ℚ → List (List ℚ)) (m v : List ℚ) (hd : 0 < c.er_den) :
    c.elite_num = Nat.ceil (((c.population_size * c.er_num : Nat) : ℚ) / (c.er_den : ℚ)) ∧
    (c.elite_num = 0 →
      CEMOptimizer.optimize c score sample m v = .error .invalidConfiguration) ∧
    (1 ≤ c.elite_num → (CEMOptimizer.optimize c score sample m v).isOk = true) ∧
    notebook_optimizer_cfg.elite_num = 50 ∧
    CEMOptimizer.validate notebook_optimizer_cfg = .ok () := by
  refine ⟨ceilDiv_eq_ceil _ _ hd, fun h => ?_, fun h => ?_, by decide, by rfl⟩
  · unfold CEMOptimizer.optimize CEMOptimizer.validate
    rw [if_neg (by omega)]
  · unfold CEMOptimizer.optimize CEMOptimizer.validate
    rw [if_pos h]
    rfl

/-- Witness for C4 at the notebook optimizer configuration. -/
theorem cem_elite_config_witness :
    0 < notebook_optimizer_cfg.er_den ∧
    (notebook_optimizer_cfg.elite_num
        = Nat.ceil (((notebook_optimizer_cfg.population_size * notebook_optimizer_cfg.er_num : Nat) : ℚ)
          / (notebook_optimizer_cfg.er_den : ℚ)) ∧
     (notebook_optimizer_cfg.elite_num = 0 →
       CEMOptimizer.optimize notebook_optimizer_cfg (fun _ => 0) (fun _ => []) [] []
         = .error .invalidConfiguration) ∧
     (1 ≤ notebook_optimizer_cfg.elite_num →
       (CEMOptimizer.optimize notebook_optimizer_cfg (fun _ => 0) (fun _ => []) [] []).isOk = true) ∧
     notebook_optimizer_cfg.elite_num = 50 ∧
     CEMOptimizer.validate notebook_optimizer_cfg = .ok ()) :=
  ⟨by decide, cem_elite_config notebook_optimizer_cfg (fun _ => 0) (fun _ => []) [] [] (by decide)⟩

theorem sortedByScore_perm (scored : List (List ℚ × ℚ)) :
    List.Perm (sortedByScore scored) scored :=
  List.mergeSort_perm scored _

theorem sortedByScore_pairwise (scored : List (List ℚ × ℚ)) :
    List.Pairwise (fun a b : List ℚ × ℚ => b.2 ≤ a.2) (sortedByScore scored) := by
  have htrans : ∀ a b c : List ℚ × ℚ,
      (fun x y : List ℚ × ℚ => decide (y.2 ≤ x.2)) a b = true →
      (fun x y : List ℚ × ℚ => decide (y.2 ≤ x.2)) b c = true →
      (fun x y : List ℚ × ℚ => decide (y.2 ≤ x.2)) a c = true := by
    intro a b c hab hbc
    simp only [decide_eq_true_eq] at hab hbc ⊢
    exact le_trans hbc hab
  have htotal : ∀ a b : List ℚ × ℚ,
      ((fun x y : List ℚ × ℚ => decide (y.2 ≤ x.2)) a b
        || (fun x y : List ℚ × ℚ => decide (y.2 ≤ x.2)) b a) = true := by
    intro a b
    rcases le_total a.2 b.2 with h | h <;> simp [h]
  have hp := List.sorted_mergeSort htrans htotal scored
  exact hp.imp (fun h => by simpa using h)

/-- Claim C5: in one CEM iteration the elite set is the top elite_num = ceil(population_size
times elite_ratio) candidates by score — it has exactly elite_num members, together with the
dropped candidates it is a permutation of the scored population, and every elite scores at
least as high as every dropped candidate — and the sampling distribution is updated pointwise
as new_mean = alpha * old_mean + (1 - alpha) * elite_mean and new_variance = alpha *
old_variance + (1 - alpha) * elite_variance. -/
theorem cem_iteration_update (c : CEMConfig) (scored : List (List ℚ × ℚ)) (mean vari : List ℚ)
    (hk : c.elite_num ≤ scored.length) :
    (eliteSet c.elite_num scored).length = c.elite_num ∧
    List.Perm (eliteSet c.elite_num scored ++ (sortedByScore scored).drop c.elite_num) scored ∧
    (∀ e ∈ eliteSet c.elite_num scored, ∀ r ∈ (sortedByScore scored).drop c.elite_num,
      r.2 ≤ e.2) ∧
    (cemUpdate c scored mean vari).1
      = blend c.alpha mean (vecMean ((eliteSet c.elite_num scored).map Prod.fst)) ∧
    (cemUpdate c scored mean vari).2
      = blend c.alpha vari (vecVariance ((eliteSet c.elite_num scored).map Prod.fst)) ∧
    (∀ i, ∀ h1 : i < mean.length,
      ∀ h2 : i < (vecMean ((eliteSet c.elite_num scored).map Prod.fst)).length,
      ((cemUpdate c scored mean vari).1).getD i 0
        = c.alpha * mean.get ⟨i, h1⟩
          + (1 - c.alpha) * (vecMean ((eliteSet c.elite_num scored).map Prod.fst)).get ⟨i, h2⟩) ∧
    (∀ i, ∀ h1 : i < vari.length,
      ∀ h2 : i < (vecVariance ((eliteSet c.elite_num scored).map Prod.fst)).length,
      ((cemUpdate c scored mean vari).2).getD i 0
        = c.alpha * vari.get ⟨i, h1⟩
          + (1 - c.alpha) * (vecVariance ((eliteSet c.elite_num scored).map Prod.fst)).get ⟨i, h2⟩) := by
  have hlen : (sortedByScore scored).length = scored.length := List.length_mergeSort scored
  refine ⟨?_, ?_, ?_, rfl, rfl, ?_, ?_⟩
  · unfold eliteSet
    rw [List.length_take, hlen]
    omega
  · unfold eliteSet
    rw [List.take_append_drop]
    exact sortedByScore_perm scored
  · have hp := sortedByScore_pairwise scored
    rw [← List.take_append_drop c.elite_num (sortedByScore scored)] at hp
    have := (List.pairwise_append.mp hp).2.2
    intro e he r hr
    exact this e he r hr
  · intro i h1 h2
    have hl : i < (blend c.alpha mean
        (vecMean ((eliteSet c.elite_num scored).map Prod.fst))).length := by
      unfold blend
      rw [List.length_zipWith]
      omega
    show (blend c.alpha mean (vecMean ((eliteSet c.elite_num scored).map Prod.fst))).getD i 0 = _
    rw [List.getD_eq_getElem _ _ hl]
    unfold blend
    simp only [List.getElem_zipWith, List.get_eq_getElem]
  · intro i h1 h2
    have hl : i < (blend c.alpha vari
        (vecVariance ((eliteSet c.elite_num scored).map Prod.fst))).length := by
      unfold blend
      rw [List.length_zipWith]
      omega
    show (blend c.alpha vari (vecVariance ((eliteSet c.elite_num scored).map Prod.fst))).getD i 0 = _
    rw [List.getD_eq_getElem _ _ hl]
    unfold blend
    simp only [List.getElem_zipWith, List.get_eq_getElem]

/-- Witness for C5 at a concrete population of three scored candidates with two elites. -/
theorem cem_iteration_update_witness :
    cemWitnessCfg.elite_num ≤ cemWitnessScored.length ∧
    ((eliteSet cemWitnessCfg.elite_num cemWitnessScored).length = cemWitnessCfg.elite_num ∧
     List.Perm (eliteSet cemWitnessCfg.elite_num cemWitnessScored
        ++ (sortedByScore cemWitnessScored).drop cemWitnessCfg.elite_num) cemWitnessScored ∧
     (∀ e ∈ eliteSet cemWitnessCfg.elite_num cemWitnessScored,
       ∀ r ∈ (sortedByScore cemWitnessScored).drop cemWitnessCfg.elite_num, r.2 ≤ e.2) ∧
     (cemUpdate cemWitnessCfg cemWitnessScored [0] [1]).1
       = blend cemWitnessCfg.alpha [0]
           (vecMean ((eliteSet cemWitnessCfg.elite_num cemWitnessScored).map Prod.fst)) ∧
     (cemUpdate cemWitnessCfg cemWitnessScored [0] [1]).2
       = blend cemWitnessCfg.alpha [1]
           (vecVariance ((eliteSet cemWitnessCfg.elite_num cemWitnessScored).map Prod.fst)) ∧
     (∀ i, ∀ h1 : i < ([0] : List ℚ).length,
       ∀ h2 : i < (vecMean ((eliteSet cemWitnessCfg.elite_num cemWitnessScored).map Prod.fst)).length,
       ((cemUpdate cemWitnessCfg cemWitnessScored [0] [1]).1).getD i 0
         = cemWitnessCfg.alpha * ([0] : List ℚ).get ⟨i, h1⟩
           + (1 - cemWitnessCfg.alpha)
             * (vecMean ((eliteSet cemWitnessCfg.elite_num cemWitnessScored).map Prod.fst)).get ⟨i, h2⟩) ∧
     (∀ i, ∀ h1 : i < ([1] : List ℚ).length,
       ∀ h2 : i < (vecVariance ((eliteSet cemWitnessCfg.elite_num cemWitnessScored).map Prod.fst)).length,
       ((cemUpdate cemWitnessCfg cemWitnessScored [0] [1]).2).getD i 0
         = cemWitnessCfg.alpha * ([1] : List ℚ).get ⟨i, h1⟩
           + (1 - cemWitnessCfg.alpha)
             * (vecVariance ((eliteSet cemWitnessCfg.elite_num cemWitnessScored).map Prod.fst)).get ⟨i, h2⟩)) :=
  ⟨by decide, cem_iteration_update cemWitnessCfg cemWitnessScored [0] [1] (by decide)⟩

theorem trainAux_length (tl vs : Nat → Int) (patience : Nat) :
    ∀ fuel epoch best since, (trainAux tl vs patience fuel epoch best since).length ≤ fuel := by
  intro fuel
  induction fuel with
  | zero =>
    intro e b s
    simp [trainAux]
  | succ f ih =>
    intro e b s
    by_cases himp : improvedB b (vs e) = true
    · simp only [trainAux, if_pos himp]
      split
      · simp
      · simp only [List.length_cons]
        have := ih (e + 1) (some (vs e)) 0
        omega
    · simp only [trainAux, if_neg himp]
      split
      · simp
      · simp only [List.length_cons]
        have := ih (e + 1) (some (b.getD (vs e))) (s + 1)
        omega

theorem trainAux_fields (tl vs : Nat → Int) (patience : Nat) :
    ∀ fuel epoch best since i, ∀ hi : i < (trainAux tl vs patience fuel epoch best since).length,
    ((trainAux tl vs patience fuel epoch best since).get ⟨i, hi⟩).epoch = epoch + i ∧
    ((trainAux tl vs patience fuel epoch best since).get ⟨i, hi⟩).tr_loss = tl (epoch + i) ∧
    ((trainAux tl vs patience fuel epoch best since).get ⟨i, hi⟩).val_score = vs (epoch + i) := by
  intro fuel
  induction fuel with
  | zero =>
    intro e b s i hi
    simp [trainAux] at hi
  | succ f ih =>
    intro e b s i hi
    rw [List.get_eq_getElem]
    by_cases himp : improvedB b (vs e) = true <;>
      [simp only [trainAux, if_pos himp] at hi ⊢; simp only [trainAux, if_neg himp] at hi ⊢] <;>
    · split
      next hcond =>
        rw [if_pos hcond] at hi
        simp only [List.length_cons, List.length_nil] at hi
        have hi0 : i = 0 := by omega
        subst hi0
        exact ⟨rfl, rfl, rfl⟩
      next hcond =>
        rw [if_neg hcond] at hi
        cases i with
        | zero => exact ⟨rfl, rfl, rfl⟩
        | succ j =>
          simp only [List.getElem_cons_succ]
          simp only [List.length_cons] at hi
          have hih := ih (e + 1) _ _ j (Nat.lt_of_succ_lt_succ hi)
          rw [List.get_eq_getElem] at hih
          refine ⟨?_, ?_, ?_⟩
          · rw [hih.1]
            omega
          · rw [hih.2.1]
            congr 1
            omega
          · rw [hih.2.2]
            congr 1
            omega

theorem trainAux_early_stop (tl vs : Nat → Int) (patience : Nat) :
    ∀ fuel epoch best since, (since < patience ∨ (best = none ∧ since = 0)) →
    (trainAux tl vs patience fuel epoch best since).length < fuel →
    ∃ ev, (trainAux tl vs patience fuel epoch best since).getLast? = some ev ∧
      ev.since_improve = patience := by
  intro fuel
  induction fuel with
  | zero =>
    intro e b s _ hlen
    omega
  | succ f ih =>
    intro e b s hs hlen
    by_cases himp : improvedB b (vs e) = true
    · simp only [trainAux, if_pos himp] at hlen ⊢
      split at hlen
      next hcond =>
        rw [if_pos hcond]
        refine ⟨⟨e, tl e, vs e, vs e, 0⟩, rfl, ?_⟩
        show (0 : Nat) = patience
        omega
      next hcond =>
        rw [if_neg hcond]
        simp only [List.length_cons] at hlen
        obtain ⟨ev2, hlast, hsi⟩ := ih (e + 1) (some (vs e)) 0 (Or.inl (by omega)) (by omega)
        cases hrest : trainAux tl vs patience f (e + 1) (some (vs e)) 0 with
        | nil =>
          rw [hrest] at hlast
          simp at hlast
        | cons y ys =>
          rw [hrest] at hlast
          rw [List.getLast?_cons_cons]
          exact ⟨ev2, hlast, hsi⟩
    · have hbne : b ≠ none := by
        intro hb
        rw [hb] at himp
        simp [improvedB] at himp
      have hslt : s < patience := by
        rcases hs with h | ⟨h1, _⟩
        · exact h
        · exact absurd h1 hbne
      simp only [trainAux, if_neg himp] at hlen ⊢
      split at hlen
      next hcond =>
        rw [if_pos hcond]
        refine ⟨⟨e, tl e, vs e, b.getD (vs e), s + 1⟩, rfl, ?_⟩
        show s + 1 = patience
        omega
      next hcond =>
        rw [if_neg hcond]
        simp only [List.length_cons] at hlen
        obtain ⟨ev2, hlast, hsi⟩ := ih (e + 1) (some (b.getD (vs e))) (s + 1) (Or.inl (by omega)) (by omega)
        cases hrest : trainAux tl vs patience f (e + 1) (some (b.getD (vs e))) (s + 1) with
        | nil =>
          rw [hrest] at hlast
          simp at hlast
        | cons y ys =>
          rw [hrest] at hlast
          rw [List.getLast?_cons_cons]
          exact ⟨ev2, hlast, hsi⟩

theorem trainAux_head (tl vs : Nat → Int) (patience f e : Nat) (best : Option Int) (s : Nat) :
    (trainAux tl vs patience (f + 1) e best s).head? = some
      ⟨e, tl e, vs e,
        if improvedB best (vs e) then vs e else best.getD (vs e),
        if improvedB best (vs e) then 0 else s + 1⟩ := by
  by_cases himp : improvedB best (vs e) = true
  · simp only [trainAux, if_pos himp]
    split <;> rfl
  · simp only [trainAux, if_neg himp]
    split <;> rfl

theorem trainAux_chain_cons (tl vs : Nat → Int) (patience f e : Nat) (B : Int) (S : Nat)
    (ih : List.Chain' stagnation (trainAux tl vs patience f (e + 1) (some B) S)) :
    List.Chain' stagnation
      (TrainEvent.mk e (tl e) (vs e) B S :: trainAux tl vs patience f (e + 1) (some B) S) := by
  rw [List.chain'_cons']
  refine ⟨?_, ih⟩
  intro y hy
  cases f with
  | zero =>
    simp [trainAux] at hy
  | succ f2 =>
    rw [trainAux_head] at hy
    simp only [Option.mem_def, Option.some.injEq] at hy
    subst hy
    by_cases h2 : improvedB (some B) (vs (e + 1)) = true
    · right
      rw [if_pos h2, if_pos h2]
      simp only [improvedB, decide_eq_true_eq] at h2
      exact ⟨by trivial, by trivial, h2⟩
    · left
      rw [if_neg h2, if_neg h2]
      simp only [improvedB, decide_eq_true_eq] at h2
      simp only [Option.getD_some]
      exact ⟨by trivial, by trivial, h2⟩

theorem trainAux_chain (tl vs : Nat → Int) (patience : Nat) :
    ∀ fuel epoch best since,
    List.Chain' stagnation (trainAux tl vs patience fuel epoch best since) := by
  intro fuel
  induction fuel with
  | zero =>
    intro e b s
    simp [trainAux]
  | succ f ih =>
    intro e b s
    by_cases himp : improvedB b (vs e) = true
    · simp only [trainAux, if_pos himp]
      split
      · simp
      · exact trainAux_chain_cons tl vs patience f e (vs e) 0 (ih (e + 1) (some (vs e)) 0)
    · simp only [trainAux, if_neg himp]
      split
      · simp
      · exact trainAux_chain_cons tl vs patience f e (b.getD (vs e)) (s + 1) (ih (e + 1) (some (b.getD (vs e))) (s + 1))

theorem trialLoop_zero {σ : Type} (P : RunParams) (env : RealEnv σ) (act : List Int → Int)
    (st : LoopState σ) : trialLoop P env act 0 st = .ok (st, false) := rfl

theorem trialLoop_succ {σ : Type} (P : RunParams) (env : RealEnv σ) (act : List Int → Int)
    (fuel : Nat) (st : LoopState σ) :
    trialLoop P env act (fuel + 1) st =
      match (if st.steps_trial = 0 then trainingBlock P st.buffer else .ok []) with
      | .error e => .error e
      | .ok tevs =>
        let r := step_env_and_add_to_buffer env st.envState act st.buffer
        let st2 : LoopState σ := ⟨r.1, r.2.2.2, st.steps_trial + 1, st.total_reward + r.2.1,
          st.events ++ tevs ++ [Event.envStep st.steps_trial]⟩
        if r.2.2.1 then .ok (st2, true) else trialLoop P env act fuel st2 := rfl

theorem trialLoop_steps {σ : Type} (P : RunParams) (env : RealEnv σ) (act : List Int → Int) :
    ∀ (fuel : Nat) (st st2 : LoopState σ) (flag : Bool),
    trialLoop P env act fuel st = .ok (st2, flag) →
    st2.steps_trial ≤ st.steps_trial + fuel ∧
    (flag = false → st2.steps_trial = st.steps_trial + fuel) := by
  intro fuel
  induction fuel with
  | zero =>
    intro st st2 flag h
    rw [trialLoop_zero] at h
    simp only [Except.ok.injEq, Prod.mk.injEq] at h
    obtain ⟨h1, h2⟩ := h
    subst h1
    exact ⟨by omega, fun _ => by omega⟩
  | succ f ih =>
    intro st st2 flag h
    rw [trialLoop_succ] at h
    cases htb : (if st.steps_trial = 0 then trainingBlock P st.buffer else Except.ok []) with
    | error e =>
      rw [htb] at h
      exact Except.noConfusion h
    | ok tevs =>
      rw [htb] at h
      dsimp only at h
      split at h
      next hdone =>
        simp only [Except.ok.injEq, Prod.mk.injEq] at h
        obtain ⟨h1, h2⟩ := h
        subst h1
        refine ⟨?_, fun hf => ?_⟩
        · show st.steps_trial + 1 ≤ st.steps_trial + (f + 1)
          omega
        · rw [hf] at h2
          exact Bool.noConfusion h2
      next hdone =>
        have hih := ih _ _ _ h
        dsimp only at hih
        refine ⟨?_, fun hf => ?_⟩
        · have := hih.1
          omega
        · have := hih.2 hf
          omega

/-- Claim C6: a trial ends exactly when the real environment reports done (the returned flag)
or the step counter reaches the configured trial_length; in particular no trial executes more
than trial_length real-environment steps. -/
theorem trial_termination {σ : Type} (P : RunParams) (env : RealEnv σ) (act : List Int → Int)
    (buf : ReplayBuffer Transition) (st2 : LoopState σ) (flag : Bool)
    (h : runTrial P env act buf = .ok (st2, flag)) :
    st2.steps_trial ≤ P.trial_length ∧
    (flag = false → st2.steps_trial = P.trial_length) ∧
    (flag = true ∨ st2.steps_trial = P.trial_length) := by
  have hst := trialLoop_steps P env act P.trial_length (trialStart env buf) st2 flag h
  have h0 : (trialStart env buf).steps_trial = 0 := rfl
  rw [h0] at hst
  refine ⟨by omega, fun hf => by have := hst.2 hf; omega, ?_⟩
  cases flag with
  | true => exact Or.inl rfl
  | false =>
    right
    have := hst.2 rfl
    omega

/-- Witness for C6: a concrete one-step trial in the unit environment. -/
theorem trial_termination_witness :
    runTrial tinyParamsA unitEnv zeroAct sampleBuffer
      = .ok (LoopState.mk () (ReplayBuffer.mk 2 [sampleTransition, sampleTransition]) 1 0
          [Event.normalizerUpdate 1, Event.envStep 0], false) ∧
    ((LoopState.mk () (ReplayBuffer.mk 2 [sampleTransition, sampleTransition]) 1 0
        [Event.normalizerUpdate 1, Event.envStep 0]).steps_trial ≤ tinyParamsA.trial_length ∧
     (false = false →
       (LoopState.mk () (ReplayBuffer.mk 2 [sampleTransition, sampleTransition]) 1 0
         [Event.normalizerUpdate 1, Event.envStep 0]).steps_trial = tinyParamsA.trial_length) ∧
     (false = true ∨
       (LoopState.mk () (ReplayBuffer.mk 2 [sampleTransition, sampleTransition]) 1 0
         [Event.normalizerUpdate 1, Event.envStep 0]).steps_trial = tinyParamsA.trial_length)) :=
  ⟨rfl, trial_termination tinyParamsA unitEnv zeroAct sampleBuffer _ false rfl⟩

theorem trainingBlock_ok (P : RunParams) (buf : ReplayBuffer Transition)
    (h : buf.num_stored ≠ 0) :
    trainingBlock P buf = .ok (Event.normalizerUpdate buf.num_stored
      :: (ModelTrainer.train P).map Event.epochCallback) := by
  unfold trainingBlock get_basic_buffer_iterators ReplayBuffer.sample_batches
  rw [if_neg h]

theorem trialLoop_steps_only {σ : Type} (P : RunParams) (env : RealEnv σ) (act : List Int → Int) :
    ∀ (fuel : Nat) (st st2 : LoopState σ) (flag : Bool), st.steps_trial ≠ 0 →
    trialLoop P env act fuel st = .ok (st2, flag) →
    ∃ l, st2.events = st.events ++ l ∧ ∀ e ∈ l, ∃ k, e = Event.envStep k := by
  intro fuel
  induction fuel with
  | zero =>
    intro st st2 flag hne h
    rw [trialLoop_zero] at h
    simp only [Except.ok.injEq, Prod.mk.injEq] at h
    obtain ⟨h1, _⟩ := h
    subst h1
    exact ⟨[], by simp, by simp⟩
  | succ f ih =>
    intro st st2 flag hne h
    rw [trialLoop_succ, if_neg hne] at h
    dsimp only at h
    split at h
    next hdone =>
      simp only [Except.ok.injEq, Prod.mk.injEq] at h
      obtain ⟨h1, _⟩ := h
      subst h1
      refine ⟨[Event.envStep st.steps_trial], ?_, ?_⟩
      · show st.events ++ [] ++ [Event.envStep st.steps_trial] = _
        simp
      · intro e he
        simp only [List.mem_singleton] at he
        subst he
        exact ⟨st.steps_trial, rfl⟩
    next hdone =>
      obtain ⟨l, hl1, hl2⟩ := ih _ _ _ (by show st.steps_trial + 1 ≠ 0; omega) h
      refine ⟨Event.envStep st.steps_trial :: l, ?_, ?_⟩
      · rw [hl1]
        show (st.events ++ [] ++ [Event.envStep st.steps_trial]) ++ l = _
        simp
      · intro e he
        rw [List.mem_cons] at he
        rcases he with he | he
        · exact ⟨st.steps_trial, he⟩
        · exact hl2 e he

/-- Claim C7: if a trial completes, its event trace starts with exactly one refit of the
normalizer statistics from the whole buffer, followed by the model-training epochs, followed
only by environment steps (so training happens at the first step of the trial and only then);
the training runs at most num_epochs epochs, the callback is invoked once per epoch with the
epoch index and that epoch's training loss and validation score, an early stop happens only
with the patience counter at patience, and consecutive callback events obey the
best-so-far/patience bookkeeping (stagnation). -/
theorem trial_training_schedule {σ : Type} (P : RunParams) (env : RealEnv σ)
    (act : List Int → Int) (buf : ReplayBuffer Transition) (st2 : LoopState σ) (flag : Bool)
    (hlen : 0 < P.trial_length)
    (h : runTrial P env act buf = .ok (st2, flag)) :
    ∃ stepEvs : List Event,
      st2.events = Event.normalizerUpdate buf.num_stored
          :: ((ModelTrainer.train P).map Event.epochCallback ++ stepEvs) ∧
      (∀ e ∈ stepEvs, ∃ k, e = Event.envStep k) ∧
      (ModelTrainer.train P).length ≤ P.num_epochs ∧
      (∀ i, ∀ hi : i < (ModelTrainer.train P).length,
        ((ModelTrainer.train P).get ⟨i, hi⟩).epoch = i ∧
        ((ModelTrainer.train P).get ⟨i, hi⟩).tr_loss = P.tr_loss i ∧
        ((ModelTrainer.train P).get ⟨i, hi⟩).val_score = P.val_score i) ∧
      ((ModelTrainer.train P).length < P.num_epochs →
        ∃ ev, (ModelTrainer.train P).getLast? = some ev ∧ ev.since_improve = P.patience) ∧
      List.Chain' stagnation (ModelTrainer.train P) := by
  have hlen2 := trainAux_length P.tr_loss P.val_score P.patience P.num_epochs 0 none 0
  have hfld := trainAux_fields P.tr_loss P.val_score P.patience P.num_epochs 0 none 0
  have hstop := trainAux_early_stop P.tr_loss P.val_score P.patience P.num_epochs 0 none 0
    (Or.inr ⟨rfl, rfl⟩)
  have hchain := trainAux_chain P.tr_loss P.val_score P.patience P.num_epochs 0 none 0
  unfold runTrial at h
  obtain ⟨m, hm⟩ : ∃ m, P.trial_length = m + 1 := ⟨P.trial_length - 1, by omega⟩
  rw [hm, trialLoop_succ] at h
  have h0 : (trialStart env buf).steps_trial = 0 := rfl
  rw [if_pos h0] at h
  by_cases hb : buf.num_stored = 0
  · have hblock : trainingBlock P buf = .error .emptyBuffer := by
      unfold trainingBlock get_basic_buffer_iterators ReplayBuffer.sample_batches
      rw [if_pos hb]
    rw [show (trialStart env buf).buffer = buf from rfl, hblock] at h
    exact Except.noConfusion h
  · rw [show (trialStart env buf).buffer = buf from rfl, trainingBlock_ok P buf hb] at h
    dsimp only at h
    split at h
    next hdone =>
      simp only [Except.ok.injEq, Prod.mk.injEq] at h
      obtain ⟨h1, _⟩ := h
      subst h1
      refine ⟨[Event.envStep 0], ?_, ?_, hlen2, ?_, hstop, hchain⟩
      · show [] ++ (Event.normalizerUpdate buf.num_stored
            :: (ModelTrainer.train P).map Event.epochCallback) ++ [Event.envStep 0] = _
        simp
      · intro e he
        simp only [List.mem_singleton] at he
        subst he
        exact ⟨0, rfl⟩
      · intro i hi
        simpa using hfld i hi
    next hdone =>
      obtain ⟨l, hl1, hl2⟩ := trialLoop_steps_only P env act m _ st2 flag
        (by show 0 + 1 ≠ 0; omega) h
      refine ⟨Event.envStep 0 :: l, ?_, ?_, hlen2, ?_, hstop, hchain⟩
      · rw [hl1]
        show ([] ++ (Event.normalizerUpdate buf.num_stored
            :: (ModelTrainer.train P).map Event.epochCallback) ++ [Event.envStep 0]) ++ l = _
        simp
      · intro e he
        rw [List.mem_cons] at he
        rcases he with he | he
        · exact ⟨0, he⟩
        · exact hl2 e he
      · intro i hi
        simpa using hfld i hi

/-- Witness for C7: a concrete one-step trial with one training epoch. -/
theorem trial_training_schedule_witness :
    0 < tinyParamsB.trial_length ∧
    runTrial tinyParamsB unitEnv zeroAct sampleBuffer
      = .ok (LoopState.mk () (ReplayBuffer.mk 2 [sampleTransition, sampleTransition]) 1 0
          [Event.normalizerUpdate 1, Event.epochCallback (TrainEvent.mk 0 0 0 0 0),
           Event.envStep 0], false) ∧
    (∃ stepEvs : List Event,
      (LoopState.mk () (ReplayBuffer.mk 2 [sampleTransition, sampleTransition]) 1 0
          [Event.normalizerUpdate 1, Event.epochCallback (TrainEvent.mk 0 0 0 0 0),
           Event.envStep 0]).events = Event.normalizerUpdate sampleBuffer.num_stored
          :: ((ModelTrainer.train tinyParamsB).map Event.epochCallback ++ stepEvs) ∧
      (∀ e ∈ stepEvs, ∃ k, e = Event.envStep k) ∧
      (ModelTrainer.train tinyParamsB).length ≤ tinyParamsB.num_epochs ∧
      (∀ i, ∀ hi : i < (ModelTrainer.train tinyParamsB).length,
        ((ModelTrainer.train tinyParamsB).get ⟨i, hi⟩).epoch = i ∧
        ((ModelTrainer.train tinyParamsB).get ⟨i, hi⟩).tr_loss = tinyParamsB.tr_loss i ∧
        ((ModelTrainer.train tinyParamsB).get ⟨i, hi⟩).val_score = tinyParamsB.val_score i) ∧
      ((ModelTrainer.train tinyParamsB).length < tinyParamsB.num_epochs →
        ∃ ev, (ModelTrainer.train tinyParamsB).getLast? = some ev ∧
          ev.since_improve = tinyParamsB.patience) ∧
      List.Chain' stagnation (ModelTrainer.train tinyParamsB)) :=
  ⟨by decide, rfl,
   trial_training_schedule tinyParamsB unitEnv zeroAct sampleBuffer _ false (by decide) rfl⟩

theorem step_env_buffer {σ : Type} (env : RealEnv σ) (s : σ) (act : List Int → Int)
    (buf : ReplayBuffer Transition) :
    (step_env_and_add_to_buffer env s act buf).2.2.2
      = buf.add ⟨env.obs s, act (env.obs s), (env.step s (act (env.obs s))).2.1,
          env.obs (env.step s (act (env.obs s))).1, (env.step s (act (env.obs s))).2.2⟩ := rfl

theorem step_env_done {σ : Type} (env : RealEnv σ) (s : σ) (act : List Int → Int)
    (buf : ReplayBuffer Transition) :
    (step_env_and_add_to_buffer env s act buf).2.2.1 = (env.step s (act (env.obs s))).2.2 := rfl

theorem posNormalizer_trainingBlock (P : RunParams) (buf : ReplayBuffer Transition)
    (hpos : 0 < buf.num_stored) :
    ∀ e ∈ (Event.normalizerUpdate buf.num_stored
      :: (ModelTrainer.train P).map Event.epochCallback), posNormalizer e = true := by
  intro e he
  rw [List.mem_cons] at he
  rcases he with he | he
  · subst he
    unfold posNormalizer
    exact decide_eq_true hpos
  · obtain ⟨ev, _, rfl⟩ := List.mem_map.mp he
    rfl

theorem trialLoop_ok {σ : Type} (P : RunParams) (env : RealEnv σ) (act : List Int → Int) :
    ∀ (fuel : Nat) (st : LoopState σ),
    0 < st.buffer.capacity → st.buffer.num_stored ≤ st.buffer.capacity →
    0 < st.buffer.num_stored →
    ∃ st2 flag, trialLoop P env act fuel st = .ok (st2, flag) ∧
      st2.buffer.capacity = st.buffer.capacity ∧
      st.steps_trial ≤ st2.steps_trial ∧
      st2.buffer.num_stored
        = min (st.buffer.num_stored + (st2.steps_trial - st.steps_trial)) st.buffer.capacity ∧
      (∀ e ∈ st2.events, e ∈ st.events ∨ posNormalizer e = true) := by
  intro fuel
  induction fuel with
  | zero =>
    intro st hc hle hpos
    refine ⟨st, false, trialLoop_zero P env act st, rfl, le_refl _, by omega,
      fun e he => Or.inl he⟩
  | succ f ih =>
    intro st hc hle hpos
    have hadd : (step_env_and_add_to_buffer env st.envState act st.buffer).2.2.2.capacity
        = st.buffer.capacity := by
      rw [step_env_buffer]
      exact add_capacity _ _
    have haddn : (step_env_and_add_to_buffer env st.envState act st.buffer).2.2.2.num_stored
        = min (st.buffer.num_stored + 1) st.buffer.capacity := by
      rw [step_env_buffer]
      exact add_num_stored _ _ hc hle
    have htevs : ∀ tevs,
        (if st.steps_trial = 0 then trainingBlock P st.buffer else Except.ok []) = .ok tevs →
        ∀ e ∈ tevs, posNormalizer e = true := by
      intro tevs htb e he
      by_cases h0 : st.steps_trial = 0
      · rw [if_pos h0, trainingBlock_ok P st.buffer (by omega)] at htb
        simp only [Except.ok.injEq] at htb
        subst htb
        exact posNormalizer_trainingBlock P st.buffer hpos e he
      · rw [if_neg h0] at htb
        simp only [Except.ok.injEq] at htb
        subst htb
        simp at he
    have hblock : ∃ tevs,
        (if st.steps_trial = 0 then trainingBlock P st.buffer else Except.ok []) = .ok tevs := by
      by_cases h0 : st.steps_trial = 0
      · rw [if_pos h0, trainingBlock_ok P st.buffer (by omega)]
        exact ⟨_, rfl⟩
      · rw [if_neg h0]
        exact ⟨[], rfl⟩
    obtain ⟨tevs, htb⟩ := hblock
    rw [trialLoop_succ, htb]
    dsimp only
    split
    next hdone =>
      refine ⟨_, true, rfl, hadd, by show st.steps_trial ≤ st.steps_trial + 1; omega, ?_, ?_⟩
      · show (step_env_and_add_to_buffer env st.envState act st.buffer).2.2.2.num_stored
          = min (st.buffer.num_stored + (st.steps_trial + 1 - st.steps_trial)) st.buffer.capacity
        rw [haddn]
        congr 1
        omega
      · intro e he
        show e ∈ st.events ∨ _
        rcases List.mem_append.mp he with he2 | he2
        · rcases List.mem_append.mp he2 with he3 | he3
          · exact Or.inl he3
          · exact Or.inr (htevs tevs htb e he3)
        · right
          simp only [List.mem_singleton] at he2
          subst he2
          rfl
    next hdone =>
      have hih := ih ⟨(step_env_and_add_to_buffer env st.envState act st.buffer).1,
        (step_env_and_add_to_buffer env st.envState act st.buffer).2.2.2,
        st.steps_trial + 1,
        st.total_reward + (step_env_and_add_to_buffer env st.envState act st.buffer).2.1,
        st.events ++ tevs ++ [Event.envStep st.steps_trial]⟩
        (by show (step_env_and_add_to_buffer env st.envState act st.buffer).2.2.2.capacity > 0
            rw [hadd]; exact hc)
        (by show (step_env_and_add_to_buffer env st.envState act st.buffer).2.2.2.num_stored
              ≤ (step_env_and_add_to_buffer env st.envState act st.buffer).2.2.2.capacity
            rw [hadd, haddn]; omega)
        (by show 0 < (step_env_and_add_to_buffer env st.envState act st.buffer).2.2.2.num_stored
            rw [haddn]; omega)
      obtain ⟨st3, flag3, hok3, hcap3, hsteps3, hcount3, hev3⟩ := hih
      refine ⟨st3, flag3, hok3, by rw [hcap3]; exact hadd, ?_, ?_, ?_⟩
      · dsimp only at hsteps3
        omega
      · rw [hcount3]
        dsimp only at hsteps3 ⊢
        rw [hadd, haddn]
        have h1 := hsteps3
        omega
      · intro e he
        rcases hev3 e he with he2 | he2
        · dsimp only at he2
          rcases List.mem_append.mp he2 with he3 | he3
          · rcases List.mem_append.mp he3 with he4 | he4
            · exact Or.inl he4
            · exact Or.inr (htevs tevs htb e he4)
          · right
            simp only [List.mem_singleton] at he3
            subst he3
            rfl
        · exact Or.inr he2

theorem trialLoop_nd {σ : Type} (P : RunParams) (env : RealEnv σ) (act : List Int → Int)
    (hnd : ∀ s a, (env.step s a).2.2 = false) :
    ∀ (fuel : Nat) (st st2 : LoopState σ) (flag : Bool),
    trialLoop P env act fuel st = .ok (st2, flag) → flag = false := by
  intro fuel
  induction fuel with
  | zero =>
    intro st st2 flag h
    rw [trialLoop_zero] at h
    simp only [Except.ok.injEq, Prod.mk.injEq] at h
    exact h.2.symm
  | succ f ih =>
    intro st st2 flag h
    rw [trialLoop_succ] at h
    cases htb : (if st.steps_trial = 0 then trainingBlock P st.buffer else Except.ok []) with
    | error e =>
      rw [htb] at h
      exact Except.noConfusion h
    | ok tevs =>
      rw [htb] at h
      dsimp only at h
      split at h
      next hdone =>
        rw [step_env_done, hnd] at hdone
        exact Bool.noConfusion hdone
      next hdone =>
        exact ih _ _ _ h

theorem runTrials_succ {σ : Type} (P : RunParams) (env : RealEnv σ) (act : List Int → Int)
    (n : Nat) (buf : ReplayBuffer Transition) (rews : List Int) (trs : List (List Event)) :
    runTrials P env act (n + 1) buf rews trs = match runTrial P env act buf with
      | .error e => .error e
      | .ok r => runTrials P env act n r.1.buffer (rews ++ [r.1.total_reward])
          (trs ++ [r.1.events]) := rfl

theorem runTrials_ok {σ : Type} (P : RunParams) (env : RealEnv σ) (act : List Int → Int) :
    ∀ (n : Nat) (buf : ReplayBuffer Transition) (rews : List Int) (trs : List (List Event)),
    0 < buf.capacity → buf.num_stored ≤ buf.capacity → 0 < buf.num_stored →
    ∃ res, runTrials P env act n buf rews trs = .ok res ∧
      res.buffer.capacity = buf.capacity ∧
      res.buffer.num_stored ≤ buf.capacity ∧
      0 < res.buffer.num_stored ∧
      (∀ tr ∈ res.traces, tr ∈ trs ∨ ∀ e ∈ tr, posNormalizer e = true) := by
  intro n
  induction n with
  | zero =>
    intro buf rews trs hc hle hpos
    exact ⟨⟨buf, rews, trs⟩, rfl, rfl, hle, hpos, fun tr htr => Or.inl htr⟩
  | succ n ih =>
    intro buf rews trs hc hle hpos
    obtain ⟨st2, flag, hok, hcap, hsteps, hcount, hev⟩ :=
      trialLoop_ok P env act P.trial_length (trialStart env buf) hc hle hpos
    simp only [trialStart] at hcap hcount hev
    rw [runTrials_succ]
    rw [show runTrial P env act buf = trialLoop P env act P.trial_length (trialStart env buf)
      from rfl, hok]
    dsimp only
    obtain ⟨res, hok2, hcap2, hle2, hpos2, htr2⟩ := ih st2.buffer
      (rews ++ [st2.total_reward]) (trs ++ [st2.events])
      (by rw [hcap]; exact hc) (by rw [hcap, hcount]; omega) (by rw [hcount]; omega)
    refine ⟨res, hok2, by rw [hcap2, hcap], by rw [hcap] at hle2; exact hle2, hpos2, ?_⟩
    intro tr htr
    rcases htr2 tr htr with htr3 | htr3
    · rcases List.mem_append.mp htr3 with htr4 | htr4
      · exact Or.inl htr4
      · right
        simp only [List.mem_singleton] at htr4
        subst htr4
        intro e he
        rcases hev e he with he2 | he2
        · simp at he2
        · exact he2
    · exact Or.inr htr3

theorem runTrials_nd {σ : Type} (P : RunParams) (env : RealEnv σ) (act : List Int → Int)
    (hnd : ∀ s a, (env.step s a).2.2 = false) :
    ∀ (n : Nat) (buf : ReplayBuffer Transition) (rews : List Int) (trs : List (List Event)),
    0 < buf.capacity → buf.num_stored ≤ buf.capacity → 0 < buf.num_stored →
    ∃ res, runTrials P env act n buf rews trs = .ok res ∧
      res.buffer.capacity = buf.capacity ∧
      res.buffer.num_stored = min (buf.num_stored + n * P.trial_length) buf.capacity := by
  intro n
  induction n with
  | zero =>
    intro buf rews trs hc hle hpos
    refine ⟨⟨buf, rews, trs⟩, rfl, rfl, ?_⟩
    show buf.num_stored = min (buf.num_stored + 0 * P.trial_length) buf.capacity
    omega
  | succ n ih =>
    intro buf rews trs hc hle hpos
    obtain ⟨st2, flag, hok, hcap, hsteps, hcount, hev⟩ :=
      trialLoop_ok P env act P.trial_length (trialStart env buf) hc hle hpos
    simp only [trialStart] at hcap hcount
    have hflag : flag = false := trialLoop_nd P env act hnd P.trial_length _ st2 flag hok
    subst hflag
    have hfull : st2.steps_trial = P.trial_length := by
      have := (trialLoop_steps P env act P.trial_length (trialStart env buf) st2 false hok).2 rfl
      simpa [trialStart] using this
    rw [runTrials_succ]
    rw [show runTrial P env act buf = trialLoop P env act P.trial_length (trialStart env buf)
      from rfl, hok]
    dsimp only
    have hcount2 : st2.buffer.num_stored = min (buf.num_stored + P.trial_length) buf.capacity := by
      rw [hcount, hfull]
      rfl
    obtain ⟨res, hok2, hcap2, hcount3⟩ := ih st2.buffer
      (rews ++ [st2.total_reward]) (trs ++ [st2.events])
      (by rw [hcap]; exact hc) (by rw [hcap, hcount2]; omega) (by rw [hcount2]; omega)
    refine ⟨res, hok2, by rw [hcap2, hcap], ?_⟩
    rw [hcount3, hcap, hcount2, Nat.succ_mul]
    omega

theorem rollout_count {σ : Type} (env : RealEnv σ) (act : List Int → Int) :
    ∀ (n : Nat) (s : σ) (buf : ReplayBuffer Transition),
    0 < buf.capacity → buf.num_stored ≤ buf.capacity →
    (rollout_agent_trajectories env act n s buf).capacity = buf.capacity ∧
    (rollout_agent_trajectories env act n s buf).num_stored
      = min (buf.num_stored + n) buf.capacity := by
  intro n
  induction n with
  | zero =>
    intro s buf hc hle
    refine ⟨rfl, ?_⟩
    show buf.num_stored = min (buf.num_stored + 0) buf.capacity
    omega
  | succ n ih =>
    intro s buf hc hle
    show (rollout_agent_trajectories env act n _ _).capacity = _ ∧
      (rollout_agent_trajectories env act n _ _).num_stored = _
    have hcapa : (step_env_and_add_to_buffer env s act buf).2.2.2.capacity = buf.capacity := by
      rw [step_env_buffer]
      exact add_capacity _ _
    have hcnta : (step_env_and_add_to_buffer env s act buf).2.2.2.num_stored
        = min (buf.num_stored + 1) buf.capacity := by
      rw [step_env_buffer]
      exact add_num_stored _ _ hc hle
    have hih := ih (if (step_env_and_add_to_buffer env s act buf).2.2.1 then env.reset
        else (step_env_and_add_to_buffer env s act buf).1)
      (step_env_and_add_to_buffer env s act buf).2.2.2
      (by rw [hcapa]; exact hc) (by rw [hcapa, hcnta]; omega)
    refine ⟨by rw [hih.1, hcapa], ?_⟩
    rw [hih.2, hcapa, hcnta]
    omega

theorem petsRun_def {σ : Type} (P : RunParams) (env : RealEnv σ)
    (explore_act act : List Int → Int) :
    petsRun P env explore_act act = runTrials P env act P.num_trials
      (rollout_agent_trajectories env explore_act P.trial_length env.reset
        (ReplayBuffer.empty Transition P.capacity)) [] [] := rfl

/-- Claim C10: before the first trial the program populates the buffer with exactly
trial_length random-exploration transitions (capped by the capacity), so count_stored is
positive at every subsequent training call: the whole run completes without EmptyBufferError,
and every normalizer refit recorded in the run's traces saw a non-empty buffer. -/
theorem initial_exploration_nonempty {σ : Type} (P : RunParams) (env : RealEnv σ)
    (explore_act act : List Int → Int) (h1 : 0 < P.trial_length) (h2 : 0 < P.capacity) :
    (rollout_agent_trajectories env explore_act P.trial_length env.reset
        (ReplayBuffer.empty Transition P.capacity)).num_stored
      = min P.trial_length P.capacity ∧
    0 < (rollout_agent_trajectories env explore_act P.trial_length env.reset
        (ReplayBuffer.empty Transition P.capacity)).num_stored ∧
    (petsRun P env explore_act act).isOk = true ∧
    (∀ tr ∈ runTraces (petsRun P env explore_act act), ∀ e ∈ tr, posNormalizer e = true) := by
  have hr := rollout_count env explore_act P.trial_length env.reset
    (ReplayBuffer.empty Transition P.capacity) h2 (by show 0 ≤ P.capacity; omega)
  have hcnt : (rollout_agent_trajectories env explore_act P.trial_length env.reset
      (ReplayBuffer.empty Transition P.capacity)).num_stored = min P.trial_length P.capacity := by
    rw [hr.2]
    show min (0 + P.trial_length) P.capacity = _
    omega
  obtain ⟨res, hok, hcap, hle, hpos, htrs⟩ := runTrials_ok P env act P.num_trials
    (rollout_agent_trajectories env explore_act P.trial_length env.reset
      (ReplayBuffer.empty Transition P.capacity)) [] []
    (by rw [hr.1]; exact h2) (by rw [hcnt, hr.1]; omega) (by rw [hcnt]; omega)
  refine ⟨hcnt, by rw [hcnt]; omega, ?_, ?_⟩
  · rw [petsRun_def, hok]
    rfl
  · rw [petsRun_def, hok]
    intro tr htr e he
    rcases htrs tr htr with htr2 | htr2
    · simp at htr2
    · exact htr2 e he

/-- Witness for C10: a concrete one-trial run with buffer capacity 1. -/
theorem initial_exploration_nonempty_witness :
    0 < tinyParamsC.trial_length ∧ 0 < tinyParamsC.capacity ∧
    ((rollout_agent_trajectories unitEnv zeroAct tinyParamsC.trial_length unitEnv.reset
        (ReplayBuffer.empty Transition tinyParamsC.capacity)).num_stored
      = min tinyParamsC.trial_length tinyParamsC.capacity ∧
     0 < (rollout_agent_trajectories unitEnv zeroAct tinyParamsC.trial_length unitEnv.reset
        (ReplayBuffer.empty Transition tinyParamsC.capacity)).num_stored ∧
     (petsRun tinyParamsC unitEnv zeroAct zeroAct).isOk = true ∧
     (∀ tr ∈ runTraces (petsRun tinyParamsC unitEnv zeroAct zeroAct),
       ∀ e ∈ tr, posNormalizer e = true)) :=
  ⟨by decide, by decide,
   initial_exploration_nonempty tinyParamsC unitEnv zeroAct zeroAct (by decide) (by decide)⟩

theorem petsRun_count_nd {σ : Type} (P : RunParams) (env : RealEnv σ)
    (explore_act act : List Int → Int) (hnd : ∀ s a, (env.step s a).2.2 = false)
    (h1 : 0 < P.trial_length) (h2 : 0 < P.capacity) :
    ∃ res, petsRun P env explore_act act = .ok res ∧
      res.buffer.capacity = P.capacity ∧
      res.buffer.num_stored
        = min (min P.trial_length P.capacity + P.num_trials * P.trial_length) P.capacity := by
  have hr := rollout_count env explore_act P.trial_length env.reset
    (ReplayBuffer.empty Transition P.capacity) h2 (by show 0 ≤ P.capacity; omega)
  have hcnt : (rollout_agent_trajectories env explore_act P.trial_length env.reset
      (ReplayBuffer.empty Transition P.capacity)).num_stored = min P.trial_length P.capacity := by
    rw [hr.2]
    show min (0 + P.trial_length) P.capacity = _
    omega
  obtain ⟨res, hok, hcap, hcount⟩ := runTrials_nd P env act hnd P.num_trials
    (rollout_agent_trajectories env explore_act P.trial_length env.reset
      (ReplayBuffer.empty Transition P.capacity)) [] []
    (by rw [hr.1]; exact h2) (by rw [hcnt, hr.1]; omega) (by rw [hcnt]; omega)
  refine ⟨res, ?_, by rw [hcap, hr.1]; rfl, ?_⟩
  · rw [petsRun_def, hok]
  · rw [hcount, hcnt, hr.1]
    rfl

/-- Claim C1 (amended): with the buffer capacity the notebook actually configures — num_steps =
num_trials * trial_length = 2000 — an end-to-end run of 10 trials of full length 200 (the
environment never terminating early), preceded by the 200-step random exploration, completes
with no error and leaves count_stored = 2000. -/
theorem endToEnd_count {σ : Type} (tlf vsf : Nat → Int) (env : RealEnv σ)
    (explore_act act : List Int → Int) (hnd : ∀ s a, (env.step s a).2.2 = false) :
    ∃ res, petsRun (notebookParams tlf vsf) env explore_act act = .ok res ∧
      res.buffer.num_stored = 2000 ∧
      res.buffer.capacity = 2000 ∧
      (petsRun (notebookParams tlf vsf) env explore_act act).isOk = true := by
  obtain ⟨res, hok, hcap, hcount⟩ := petsRun_count_nd (notebookParams tlf vsf) env
    explore_act act hnd (by show (0 : Nat) < 200; decide) (by show (0 : Nat) < 2000; decide)
  refine ⟨res, hok, ?_, ?_, by rw [hok]; rfl⟩
  · rw [hcount]
    show min (min 200 2000 + 10 * 200) 2000 = 2000
    decide
  · rw [hcap]
    rfl

/-- Witness for C1 (amended) in the never-terminating unit environment. -/
theorem endToEnd_count_witness :
    (∀ (s : Unit) (a : Int), (unitEnv.step s a).2.2 = false) ∧
    (∃ res, petsRun (notebookParams zInt zInt) unitEnv zeroAct zeroAct = .ok res ∧
      res.buffer.num_stored = 2000 ∧
      res.buffer.capacity = 2000 ∧
      (petsRun (notebookParams zInt zInt) unitEnv zeroAct zeroAct).isOk = true) :=
  ⟨fun _ _ => rfl, endToEnd_count zInt zInt unitEnv zeroAct zeroAct (fun _ _ => rfl)⟩

/-- Counterexample to claim C1 as stated: in the very scenario the claim fixes — buffer
capacity 1000, 10 trials of length 200 (environment never terminating early) — the final
count_stored is 1000, not 2000, because the buffer's own capacity invariant caps it. -/
theorem endToEnd_count_counterexample :
    runStoredCount (petsRun cfg1000 unitEnv zeroAct zeroAct) = some 1000 ∧
    runStoredCount (petsRun cfg1000 unitEnv zeroAct zeroAct) ≠ some 2000 := by
  obtain ⟨res, hok, hcap, hcount⟩ := petsRun_count_nd cfg1000 unitEnv zeroAct zeroAct
    (fun _ _ => rfl) (by decide) (by decide)
  have hval : res.buffer.num_stored = 1000 := by
    rw [hcount]
    decide
  constructor
  · rw [hok]
    show some res.buffer.num_stored = some 1000
    rw [hval]
  · rw [hok]
    show some res.buffer.num_stored ≠ some 2000
    rw [hval]
    decide

/-- Claim C8: the sampling distribution of planning call k+1 is initialized from the best
sequence of call k shifted left by one step (last entry reset to the default action), so the
result of call k+1 is the search applied to that shift of call k's result; resetting the agent
at a trial start discards the warm-start state, making the next call start from the default
initial solution. -/
theorem warm_start_shift (search : List Int → List Int) (H : Nat) (mid : Int)
    (a : TrajectoryOptimizerAgent) :
    initialMean H mid (planCall search H mid a).2 = shiftSol mid (planCall search H mid a).1 ∧
    (planCall search H mid (planCall search H mid a).2).1
      = search (shiftSol mid (planCall search H mid a).1) ∧
    initialMean H mid a.reset = initSolution H mid ∧
    (planCall search H mid a.reset).1 = search (initSolution H mid) := by
  exact ⟨rfl, rfl, rfl, rfl⟩

/-- Claim C9: under a fixed ensemble-member selection, the Simulated Rollout Environment's step
is a pure function of the simulated observation and the action: two states that agree on
observation and member (whatever the generator bookkeeping) produce identical (next
observation, reward, done) outputs for the same action. -/
theorem model_env_step_deterministic (m : DynamicsModel) (term_fn : List Int → Bool)
    (reward_fn : Int → List Int → Int) (s1 s2 : SimState) (a : Int)
    (hobs : s1.obs = s2.obs) (hmem : s1.member = s2.member) :
    (ModelEnv.step m term_fn reward_fn s1 a).2 = (ModelEnv.step m term_fn reward_fn s2 a).2 ∧
    (ModelEnv.step m term_fn reward_fn s1 a).1.obs = (ModelEnv.step m term_fn reward_fn s2 a).1.obs := by
  unfold ModelEnv.step
  rw [hobs, hmem]
  exact ⟨rfl, rfl⟩

/-- Witness for C9: two states with equal observation and member but different generator
bookkeeping. -/
theorem model_env_step_deterministic_witness :
    (SimState.mk [1, 2] 0 5).obs = (SimState.mk [1, 2] 0 99).obs ∧
    (SimState.mk [1, 2] 0 5).member = (SimState.mk [1, 2] 0 99).member ∧
    ((ModelEnv.step (DynamicsModel.mk (fun _ o a => o.map (fun x => x + a))) (fun _ => false)
        (fun _ o => o.headD 0) (SimState.mk [1, 2] 0 5) 3).2
      = (ModelEnv.step (DynamicsModel.mk (fun _ o a => o.map (fun x => x + a))) (fun _ => false)
        (fun _ o => o.headD 0) (SimState.mk [1, 2] 0 99) 3).2 ∧
     (ModelEnv.step (DynamicsModel.mk (fun _ o a => o.map (fun x => x + a))) (fun _ => false)
        (fun _ o => o.headD 0) (SimState.mk [1, 2] 0 5) 3).1.obs
      = (ModelEnv.step (DynamicsModel.mk (fun _ o a => o.map (fun x => x + a))) (fun _ => false)
        (fun _ o => o.headD 0) (SimState.mk [1, 2] 0 99) 3).1.obs) :=
  ⟨rfl, rfl,
   model_env_step_deterministic (DynamicsModel.mk (fun _ o a => o.map (fun x => x + a)))
     (fun _ => false) (fun _ o => o.headD 0) (SimState.mk [1, 2] 0 5)
     (SimState.mk [1, 2] 0 99) 3 rfl rfl⟩

end Pets
